import Mathlib

/-!
Verification of the nanojekyll static site generator (nanojekyll.py)
against its natural-language specification.  The Python source is shallowly
embedded: strings are Lean strings, Python dicts become association lists,
the YAML parser, the markdown converter and the liquid template engine are
external collaborators and are modelled at the interface level only.
-/

/-- Prefix test on character lists, used to model Python substring search. -/
def subAt : List Char → List Char → Bool
  | [], _ => true
  | _ :: _, [] => false
  | p :: ps, c :: cs => p == c && subAt ps cs

/-- Substring containment on character lists, modelling the Python test
`pat in s`. -/
def containsSubAux (pat : List Char) : List Char → Bool
  | [] => subAt pat []
  | c :: cs => subAt pat (c :: cs) || containsSubAux pat cs

/-- Substring containment on strings, modelling the Python expression
`pat in s`. -/
def containsSub (pat s : String) : Bool :=
  containsSubAux pat.toList s.toList

/-- Index of the rightmost occurrence of a character, modelling
Python `str.rfind` restricted to single characters. -/
def rfindChar (c : Char) : List Char → Option Nat
  | [] => none
  | x :: xs =>
    match rfindChar c xs with
    | some i => some (i + 1)
    | none => if x == c then some 0 else none

/-- Forward substring search from a running index, helper for `pyFind`. -/
def findFrom (pat : List Char) : List Char → Nat → Option Nat
  | [], i => if pat.isEmpty then some i else none
  | c :: cs, i => if subAt pat (c :: cs) then some i else findFrom pat cs (i + 1)

/-- Python `s.find(pat, start)`: first index of `pat` at or after `start`,
or `-1` when absent. -/
def pyFind (cs pat : List Char) (start : Nat) : Int :=
  match findFrom pat (cs.drop start) start with
  | some i => (i : Int)
  | none => -1

/-- Normalisation of a (possibly negative) Python index against a length,
following Python slice semantics. -/
def pyIdx (len : Nat) (i : Int) : Nat :=
  if i < 0 then ((len : Int) + i).toNat else min i.toNat len

/-- Python slice `cs[i:j]`, including the negative-index convention. -/
def pySlice (cs : List Char) (i j : Int) : List Char :=
  (cs.take (pyIdx cs.length j)).drop (pyIdx cs.length i)

/-- Python slice `cs[i:]`, including the negative-index convention. -/
def pySliceFrom (cs : List Char) (i : Int) : List Char :=
  cs.drop (pyIdx cs.length i)

/-- Split a slash-joined path at its last separator into directory part
(with trailing slash) and final component, as `pathlib` does. -/
def splitAtLastSlash (cs : List Char) : List Char × List Char :=
  match rfindChar '/' cs with
  | some i => (cs.take (i + 1), cs.drop (i + 1))
  | none => ([], cs)

/-- Extension of a final path component per `pathlib`: the part from the
last dot, provided that dot is neither first nor last character. -/
def pySuffixName (name : List Char) : List Char :=
  match rfindChar '.' name with
  | some i => if 0 < i ∧ i + 1 < name.length then name.drop i else []
  | none => []

/-- Python `Path(s).suffix`. -/
def pySuffix (s : String) : String :=
  String.mk (pySuffixName (splitAtLastSlash s.toList).2)

/-- Python `Path(s).with_suffix(ext)`: drop the current extension of the
final component and append `ext`. -/
def pyWithSuffix (s ext : String) : String :=
  let dn := splitAtLastSlash s.toList
  String.mk (dn.1 ++ dn.2.take (dn.2.length - (pySuffixName dn.2).length) ++ ext.toList)

/-- Python `s.split(".")[-1]`: the segment after the last dot, or the whole
string when no dot occurs. -/
def lastSeg (s : String) : String :=
  match rfindChar '.' s.toList with
  | some i => String.mk (s.toList.drop (i + 1))
  | none => s

/-- Header extraction step of `read_file` (nanojekyll.py lines 82–91):
locate the first two occurrences of the `---` delimiter with Python `find`,
take the text between them as the header block handed to the external YAML
parser, and the text after the second occurrence as the body.  `find`
returning `-1` is modelled exactly, including its reuse as a slice index. -/
def extractHeader (content : String) : Option String × String :=
  let cs := content.toList
  let delim := "---".toList
  let a := pyFind cs delim 0
  if 0 ≤ a then
    let b := pyFind cs delim (a + 3).toNat
    (some (String.mk (pySlice cs (a + 3) b)), String.mk (pySliceFrom cs (b + 3)))
  else
    (none, content)

/-- Filesystem state relevant to `new_site` (nanojekyll.py lines 52–72):
whether the configuration file, the sample index page and the four reserved
directories exist. -/
structure FS where
  configFile : Bool
  indexFile : Bool
  siteDir : Bool
  includesDir : Bool
  layoutsDir : Bool
  rootDir : Bool
deriving DecidableEq

/-- The `create_paths` helper (lines 52–56): create the four reserved
directories, tolerating existing ones. -/
def create_paths (fs : FS) : FS :=
  { fs with siteDir := true, includesDir := true, layoutsDir := true, rootDir := true }

/-- The `new_site` command (lines 58–72): refuse when a configuration file
already exists, otherwise write the configuration, the sample page when
absent, and the reserved directories. -/
def new_site (fs : FS) : Bool × FS :=
  if fs.configFile then (false, fs)
  else
    let fs1 : FS := { fs with configFile := true }
    let fs2 : FS := if fs1.indexFile then fs1 else { fs1 with indexFile := true }
    (true, create_paths fs2)

/-- Values occurring in a parsed YAML header, at the granularity the build
pipeline inspects them: strings, booleans, integers and the YAML null. -/
inductive HVal
  | s (v : String)
  | b (v : Bool)
  | i (v : Int)
  | null
deriving DecidableEq

/-- A parsed header: the key–value mapping the external YAML parser returns,
as an association list in insertion order. -/
abbrev Header := List (String × HVal)

/-- Dictionary lookup on an association list, modelling `d[k]` and `k in d`. -/
def lookupKey {α : Type} : List (String × α) → String → Option α
  | [], _ => none
  | kv :: rest, k => if kv.1 = k then some kv.2 else lookupKey rest k

/-- Dictionary assignment `d[k] = v`: replace the existing binding or append
a new one, preserving insertion order. -/
def setKey {α : Type} : List (String × α) → String → α → List (String × α)
  | [], k, v => [(k, v)]
  | kv :: rest, k, v => if kv.1 = k then (k, v) :: rest else kv :: setKey rest k v

/-- Python truthiness of a header value, as used by `if not header.get(...)`. -/
def truthy : HVal → Bool
  | .s v => v != ""
  | .b v => v
  | .i v => v != 0
  | .null => false

/-- The pattern `header.get(key, True)` followed by a truthiness test
(nanojekyll.py lines 100 and 227): missing keys default to true. -/
def getFlag (h : Header) (k : String) : Bool :=
  match lookupKey h k with
  | none => true
  | some v => truthy v

/-- Values stored in the global `site` dictionary: configuration values,
the build timestamp, and per-group header listings. -/
inductive SVal
  | conf (v : HVal)
  | num (t : Int)
  | listing (hs : List Header)
deriving DecidableEq

/-- The global `site` dictionary exposed to every template render. -/
abbrev SiteDict := List (String × SVal)

/-- Values passed to the external template engine in its parameter
dictionary: strings, headers, the site dictionary, and include records. -/
inductive LVal
  | str (v : String)
  | hdr (h : Header)
  | sited (d : SiteDict)
  | dict (d : List (String × String))
deriving DecidableEq

/-- One piece of a parsed template: literal text or a variable reference.
The liquid engine is an external collaborator; this is its interface-level
model of a template string. -/
inductive TplPart
  | lit (s : String)
  | var (k : String)
deriving DecidableEq

/-- A template, as the external engine sees it. -/
abbrev Tpl := List TplPart

/-- Interface-level model of the external template engine: literal text is
emitted verbatim and a variable reference is replaced by the string bound to
it in the parameter dictionary (anything else renders as empty text). -/
def render (t : Tpl) (params : List (String × LVal)) : String :=
  t.foldl
    (fun acc p =>
      match p with
      | .lit s => acc ++ s
      | .var k =>
        match lookupKey params k with
        | some (.str v) => acc ++ v
        | _ => acc)
    ""

/-- One record of the `files` list built by the scanner (nanojekyll.py
lines 231–236): logical name, destination stem, parsed header, body. -/
structure SourceFile where
  name : String
  path : String
  header : Header
  content : Tpl
deriving DecidableEq

/-- State threaded through a directory-group scan: the `unique_dict` seen
set, the global `files` list, and the group's `site[dirname]` listing. -/
structure ScanState where
  seen : List String
  files : List SourceFile
  listing : List Header
deriving DecidableEq

/-- The `add_file` closure (nanojekyll.py lines 220–240).  The environment
`env` stands for `read_file` on the underlying filesystem: it yields the
parsed header and body template of the file named `_` ++ name.  Duplicate
names are skipped silently; a falsy `process_file` header flag skips the
file after marking the name as seen; otherwise the record is appended to
the files list and its header appended to the group's listing. -/
def add_file (dirname : String) (env : String → Header × Tpl)
    (st : ScanState) (entry : String) : ScanState :=
  let name := dirname ++ "/" ++ entry
  if name ∈ st.seen then st
  else
    let hc := env name
    if getFlag hc.1 "process_file" then
      { seen := name :: st.seen,
        files := st.files ++
          [{ name := name, path := pyWithSuffix name "", header := hc.1, content := hc.2 }],
        listing := st.listing ++ [hc.1] }
    else { st with seen := name :: st.seen }

/-- Fold of `add_file` over a list of already-expanded entry names. -/
def scanNames (dirname : String) (env : String → Header × Tpl)
    (st : ScanState) (es : List String) : ScanState :=
  es.foldl (add_file dirname env) st

/-- Expansion of one group entry (nanojekyll.py lines 243–253): the two
wildcard tokens enumerate the reserved directory listing and keep the names
whose extension matches; any other entry is used literally. -/
def expandEntry (dirListing : List String) (entry : String) : List String :=
  if entry == "*.html" || entry == "*.md" then
    let sfx := "." ++ lastSeg entry
    dirListing.foldl (fun acc f => if pySuffix f == sfx then acc ++ [f] else acc) []
  else [entry]

/-- Scan of one group entry: every expanded name goes through `add_file`. -/
def scanEntry (dirname : String) (env : String → Header × Tpl)
    (dirListing : List String) (st : ScanState) (entry : String) : ScanState :=
  scanNames dirname env st (expandEntry dirListing entry)

/-- Scan of one directory group (nanojekyll.py lines 214–253): fresh seen
set, fresh listing, then every entry of the group in order. -/
def scanGroup (dirname : String) (env : String → Header × Tpl)
    (dirListing : List String) (entries : List String) : ScanState :=
  entries.foldl (scanEntry dirname env dirListing)
    { seen := [], files := [], listing := [] }

/-- One entry of the configuration's `files` list: a literal root-level
filename or a directory group with its entry list. -/
inductive FileSpec
  | lit (name : String)
  | group (dirname : String) (entries : List String)

/-- Construction of the `site` dictionary during `build_site` (nanojekyll.py
lines 152–159 and 214–240): start from the parsed configuration, assign the
timestamp under `time`, and for every directory group assign the group name
to that group's scanned header listing.  `t` stands for the wall clock,
`dirs` for `os.listdir` on the reserved directory of each group. -/
def build_site_dict (t : Int) (env : String → Header × Tpl)
    (dirs : String → List String) (config : SiteDict)
    (specs : List FileSpec) : SiteDict :=
  specs.foldl
    (fun site spec =>
      match spec with
      | .lit _ => site
      | .group d es => setKey site d (SVal.listing (scanGroup d env (dirs d) es).listing))
    (setKey config "time" (SVal.num t))

/-- Internal build state consumed by `process_file`: the layouts registry
(name to template, resolved through the layouts directory), the includes
records, and the output directory prefix. -/
structure PState where
  layouts : List (String × Tpl)
  includes : List (String × LVal)
  sitePath : String
deriving DecidableEq

/-- The liquid parameter dictionary of `process_file` (lines 103–109):
`site`, `page`, then one entry per include record. -/
def baseParams (stt : PState) (site : SiteDict) (f : SourceFile) :
    List (String × LVal) :=
  stt.includes.foldl (fun p kv => setKey p kv.1 kv.2)
    (setKey (setKey [] "site" (LVal.sited site)) "page" (LVal.hdr f.header))

/-- String content of a header value where the code requires a string
(layout names and path overrides). -/
def hvalStr : HVal → String
  | .s v => v
  | _ => ""

/-- Output path assembly of `process_file` (lines 121–132): a header `path`
override yields an `index` file inside the directory it names; otherwise
the destination is the source's stem under the site directory, with
`/index` appended unless the string already contains `index`; finally the
extension is replaced by `.html`. -/
def assembleOutPath (sitePath : String) (h : Header) (fpath : String) : String :=
  let outpath :=
    match lookupKey h "path" with
    | some v => sitePath ++ "/" ++ hvalStr v ++ "/index"
    | none =>
      let op := sitePath ++ "/" ++ fpath
      if containsSub "index" op then op else op ++ "/index"
  pyWithSuffix outpath ".html"

/-- The `process_file` function (nanojekyll.py lines 99–136): skip when the
`create_page` flag is falsy; otherwise render the body (pass A), then, when
the header names a layout, render the named layout template against the
same parameters extended with `content` bound to the pass A result (pass
B).  The returned pair is the destination path and the text written there;
a layout name absent from the registry raises, modelled as an error. -/
def process_file (stt : PState) (site : SiteDict) (f : SourceFile) :
    Except String (Option (String × String)) :=
  if getFlag f.header "create_page" then
    let params := baseParams stt site f
    let passA := render f.content params
    match lookupKey f.header "layout" with
    | some (HVal.s lname) =>
      match lookupKey stt.layouts lname with
      | some ltpl =>
        Except.ok (some (assembleOutPath stt.sitePath f.header f.path,
          render ltpl (setKey params "content" (LVal.str passA))))
      | none => Except.error "MissingLayout"
    | some _ => Except.error "MissingLayout"
    | none =>
      Except.ok (some (assembleOutPath stt.sitePath f.header f.path, passA))
  else Except.ok none

/-- The url annotation pass (nanojekyll.py lines 255–260): every file's
header gets its `url` key assigned, from the `path` override when present,
else from the logical name with its extension stripped. -/
def annotate_url (f : SourceFile) : SourceFile :=
  match lookupKey f.header "path" with
  | some v => { f with header := setKey f.header "url" v }
  | none => { f with header := setKey f.header "url" (HVal.s (pyWithSuffix f.name "")) }

/-- Destination rule as the specification states it after amendment, written
independently of `process_file` for refinement: path override to an index
file inside the named directory, otherwise the logical path with `/index`
appended unless the destination string already contains `index`; the
extension is always normalised to `.html`. -/
def outputPathSpec (sitePath : String) (h : Header) (fpath : String) : String :=
  match lookupKey h "path" with
  | some v => pyWithSuffix (sitePath ++ "/" ++ hvalStr v ++ "/index") ".html"
  | none =>
    if containsSub "index" (sitePath ++ "/" ++ fpath) then
      pyWithSuffix (sitePath ++ "/" ++ fpath) ".html"
    else
      pyWithSuffix (sitePath ++ "/" ++ fpath ++ "/index") ".html"

/-- Sample filesystem for the ordering-index experiment: the two post files
declare ordering indices 2 and 1 in this scan order. -/
def envIdx : String → Header × Tpl := fun n =>
  if n = "posts/a.html" then ([("idx", HVal.i 2)], [])
  else ([("idx", HVal.i 1)], [])

/-- Sample filesystem for the header-only experiment: every file parses to
an empty header and a whitespace-only body. -/
def envWs : String → Header × Tpl := fun _ => ([], [TplPart.lit "  "])

/-- Sample filesystem whose single header carries one opaque key and whose
body is whitespace-only. -/
def envWsH : String → Header × Tpl := fun _ => ([("k", HVal.s "v")], [TplPart.lit "  "])

/-- Sample filesystem where every header switches the `process_file` flag
off while the body is non-empty. -/
def envSkip : String → Header × Tpl := fun _ =>
  ([("process_file", HVal.b false)], [TplPart.lit "body"])

/-- Sample filesystem with empty headers and bodies, for the duplicate
experiment. -/
def envDup : String → Header × Tpl := fun _ => ([], [])

/-- Empty scan state, as at the start of each directory group. -/
def emptyScan : ScanState := { seen := [], files := [], listing := [] }

/-- Build state with no layouts and no includes, output under `_site`. -/
def pstPlain : PState := { layouts := [], includes := [], sitePath := "_site" }

/-- The layout template of the wrap-once experiment, reading the spec's
example layout as literal text around the content variable. -/
def baseTpl : Tpl := [TplPart.lit "<x>", TplPart.var "content", TplPart.lit "</x>"]

/-- Build state registering the wrap-once layout under the name `base`. -/
def pstBase : PState := { layouts := [("base", baseTpl)], includes := [], sitePath := "_site" }

/-- Sample source file whose header names the `base` layout. -/
def fileBase : SourceFile :=
  { name := "p.html", path := "p", header := [("layout", HVal.s "base")],
    content := [TplPart.lit "hi"] }

/-- Looking up a key immediately after assigning it yields the assigned
value, as for a Python dict. -/
theorem lookupKey_setKey_self {α : Type} (m : List (String × α)) (k : String) (v : α) :
    lookupKey (setKey m k v) k = some v := by
  induction m with
  | nil => simp [setKey, lookupKey]
  | cons kv rest ih =>
    by_cases h : kv.1 = k
    · simp [setKey, h, lookupKey]
    · simp [setKey, h, lookupKey, ih]

/-- Appending the empty string on the left is the identity. -/
theorem string_empty_append (s : String) : "" ++ s = s := rfl

/-- A fold that conditionally pushes elements to the back computes a filter
onto the accumulator. -/
theorem foldl_push_filter {α : Type} (p : α → Bool) (l acc : List α) :
    l.foldl (fun a x => if p x then a ++ [x] else a) acc = acc ++ l.filter p := by
  induction l generalizing acc with
  | nil => simp
  | cons x xs ih =>
    by_cases h : p x <;> simp [List.filter_cons, h, ih]

/-- The name handed to `add_file` is in the seen set afterwards. -/
theorem add_file_seen_self (d : String) (env : String → Header × Tpl)
    (st : ScanState) (e : String) :
    (d ++ "/" ++ e) ∈ (add_file d env st e).seen := by
  unfold add_file
  by_cases h : (d ++ "/" ++ e) ∈ st.seen
  · simp [h]
  · by_cases hf : getFlag (env (d ++ "/" ++ e)).1 "process_file" <;> simp [h, hf]

/-- `add_file` never removes a name from the seen set. -/
theorem add_file_seen_mono (d : String) (env : String → Header × Tpl)
    (st : ScanState) (e x : String) (hx : x ∈ st.seen) :
    x ∈ (add_file d env st e).seen := by
  unfold add_file
  by_cases h : (d ++ "/" ++ e) ∈ st.seen
  · simp [h, hx]
  · by_cases hf : getFlag (env (d ++ "/" ++ e)).1 "process_file" <;> simp [h, hf] <;>
      exact Or.inr hx

/-- A name already seen makes `add_file` a no-op: the duplicate is dropped
silently, leaving the whole scan state unchanged. -/
theorem add_file_seen_skip (d : String) (env : String → Header × Tpl)
    (st : ScanState) (e : String) (h : (d ++ "/" ++ e) ∈ st.seen) :
    add_file d env st e = st := by
  unfold add_file
  simp [h]

/-- Scanning more entries never removes a name from the seen set. -/
theorem scanNames_seen_mono (d : String) (env : String → Header × Tpl)
    (es : List String) (st : ScanState) (x : String) (hx : x ∈ st.seen) :
    x ∈ (scanNames d env st es).seen := by
  induction es generalizing st with
  | nil => exact hx
  | cons e es ih => exact ih _ (add_file_seen_mono d env st e x hx)

/-- After scanning a list containing an entry, that entry's resolved name is
in the seen set. -/
theorem scanNames_seen_of_mem (d : String) (env : String → Header × Tpl)
    (es : List String) (st : ScanState) (e : String) (he : e ∈ es) :
    (d ++ "/" ++ e) ∈ (scanNames d env st es).seen := by
  induction es generalizing st with
  | nil => cases he
  | cons a as ih =>
    rcases List.mem_cons.mp he with h | h
    · subst h
      exact scanNames_seen_mono d env as _ _ (add_file_seen_self d env st e)
    · exact ih _ h

/-- Scanning a concatenation scans the pieces in order. -/
theorem scanNames_append (d : String) (env : String → Header × Tpl)
    (st : ScanState) (xs ys : List String) :
    scanNames d env st (xs ++ ys) = scanNames d env (scanNames d env st xs) ys := by
  unfold scanNames
  exact List.foldl_append _ _ _ _

/-- C4: a source document with an opening `---` but no closing `---` is not
rejected.  `find` returns `-1`, which the code reuses as a slice index, so
the header block is silently taken to be everything between the delimiter
and the last character, and the body becomes the text from index 2 onward.
Evaluating the embedded code at the failing input `---\ntitle: x` exhibits
the silent truncation the specification forbids. -/
theorem extractHeader_unclosed_silent :
    extractHeader "---\ntitle: x" = (some "\ntitle: ", "-\ntitle: x") := by
  rfl

/-- C9: when a site configuration already exists, `new_site` returns failure
and the filesystem state is returned completely unchanged: no configuration
write, no sample page, no reserved directory creation. -/
theorem new_site_existing_config (fs : FS) (hc : fs.configFile = true) :
    new_site fs = (false, fs) := by
  simp [new_site, hc]

/-- Witness for C9 at a concrete filesystem state. -/
theorem new_site_existing_config_wit :
    new_site (FS.mk true false false false false false) =
      (false, FS.mk true false false false false false) :=
  new_site_existing_config (FS.mk true false false false false false) rfl

/-- C1: when the header names a layout present in the registry, the final
output of `process_file` is the layout template rendered against the page
parameters extended with `content` bound to the pass A body render; when no
layout is named, the final output is exactly the pass A render; and for the
specification's example layout the body is wrapped exactly once. -/
theorem layout_wraps_exactly_once
    (stt : PState) (site : SiteDict) (f : SourceFile)
    (hcp : getFlag f.header "create_page" = true) :
    (∀ lname ltpl,
        lookupKey f.header "layout" = some (HVal.s lname) →
        lookupKey stt.layouts lname = some ltpl →
        process_file stt site f =
          Except.ok (some (assembleOutPath stt.sitePath f.header f.path,
            render ltpl (setKey (baseParams stt site f) "content"
              (LVal.str (render f.content (baseParams stt site f))))))) ∧
    (lookupKey f.header "layout" = none →
        process_file stt site f =
          Except.ok (some (assembleOutPath stt.sitePath f.header f.path,
            render f.content (baseParams stt site f)))) ∧
    (∀ lname,
        lookupKey f.header "layout" = some (HVal.s lname) →
        lookupKey stt.layouts lname = some baseTpl →
        process_file stt site f =
          Except.ok (some (assembleOutPath stt.sitePath f.header f.path,
            "<x>" ++ render f.content (baseParams stt site f) ++ "</x>"))) := by
  refine ⟨?_, ?_, ?_⟩
  · intro lname ltpl h1 h2
    unfold process_file
    simp [hcp, h1, h2]
  · intro h1
    unfold process_file
    simp [hcp, h1]
  · intro lname h1 h2
    unfold process_file
    simp [hcp, h1, h2, baseTpl, render, List.foldl_cons, List.foldl_nil,
      lookupKey_setKey_self, string_empty_append, String.append_assoc]

/-- Witness for C1: a concrete file with the `base` layout is wrapped
exactly once around its rendered body. -/
theorem layout_wraps_exactly_once_wit :
    process_file pstBase [] fileBase =
      Except.ok (some ("_site/p/index.html", "<x>hi</x>")) := by
  have h := (layout_wraps_exactly_once pstBase [] fileBase rfl).2.2 "base" rfl rfl
  exact h

/-- C2, counterexample: two group entries whose headers declare ordering
indices 2 then 1 in scan order produce the listing in scan order, not the
ascending order the claim requires. -/
theorem index_order_counterexample :
    (scanGroup "posts" envIdx [] ["a.html", "b.html"]).listing =
      [[("idx", HVal.i 2)], [("idx", HVal.i 1)]] ∧
    [[("idx", HVal.i 2)], [("idx", HVal.i 1)]] ≠
      [[("idx", HVal.i 1)], [("idx", HVal.i 2)]] := by
  exact ⟨rfl, by decide⟩

/-- C2, amended: each kept header is appended at the end of the group's
listing, so the listing is in scan order; an explicit ordering index never
selects an insertion point. -/
theorem listing_append_only (d : String) (env : String → Header × Tpl)
    (st : ScanState) (e : String) :
    (add_file d env st e).listing = st.listing ∨
    (add_file d env st e).listing = st.listing ++ [(env (d ++ "/" ++ e)).1] := by
  unfold add_file
  by_cases h : (d ++ "/" ++ e) ∈ st.seen
  · left; simp [h]
  · by_cases hf : getFlag (env (d ++ "/" ++ e)).1 "process_file"
    · right; simp [h, hf]
    · left; simp [h, hf]

/-- C3, counterexample: a header-only document (whitespace-only body) is
processed like any other file: it is kept in the files list, its header is
appended to the sibling listing, `process_file` writes an output file, and
its header block is still extracted. -/
theorem header_only_counterexample :
    (scanGroup "posts" envWs [] ["a.html"]).listing = [[]] ∧
    (scanGroup "posts" envWs [] ["a.html"]).files ≠ [] ∧
    process_file pstPlain []
      { name := "posts/a.html", path := "posts/a", header := [],
        content := [TplPart.lit "  "] } =
        Except.ok (some ("_site/posts/a/index.html", "  ")) ∧
    extractHeader "---\nk: v\n---\n  " = (some "\nk: v\n", "\n  ") := by
  refine ⟨rfl, by decide, rfl, rfl⟩

/-- C3, amended: a source document whose body is empty or whitespace-only is
not skipped: its header is appended to the sibling listing and the build
writes an output file for it (the rendered whitespace), provided only that
the enable flags keep their default and no layout is named; its header
parsing succeeds as for any document. -/
theorem whitespace_body_still_processed
    (d : String) (env : String → Header × Tpl) (st : ScanState) (e : String)
    (h : Header) (stt : PState) (site : SiteDict) (name fpath : String)
    (hs : (d ++ "/" ++ e) ∉ st.seen)
    (henv : env (d ++ "/" ++ e) = (h, [TplPart.lit "  "]))
    (hpf : getFlag h "process_file" = true)
    (hcp : getFlag h "create_page" = true)
    (hlay : lookupKey h "layout" = none) :
    (add_file d env st e).listing = st.listing ++ [h] ∧
    process_file stt site
      { name := name, path := fpath, header := h, content := [TplPart.lit "  "] } =
      Except.ok (some (assembleOutPath stt.sitePath h fpath, "  ")) := by
  constructor
  · unfold add_file
    simp [hs, henv, hpf]
  · unfold process_file
    simp [hcp, hlay]
    rfl

/-- Witness for C3 at a concrete header and build state. -/
theorem whitespace_body_still_processed_wit :
    (add_file "posts" envWsH emptyScan "a.html").listing =
      emptyScan.listing ++ [[("k", HVal.s "v")]] ∧
    process_file pstPlain []
      { name := "posts/a.html", path := "posts/a", header := [("k", HVal.s "v")],
        content := [TplPart.lit "  "] } =
      Except.ok (some (assembleOutPath pstPlain.sitePath [("k", HVal.s "v")] "posts/a", "  ")) :=
  whitespace_body_still_processed "posts" envWsH emptyScan "a.html"
    [("k", HVal.s "v")] pstPlain [] "posts/a.html" "posts/a"
    (by simp [emptyScan]) rfl rfl rfl rfl

/-- C5, counterexample: an explicit header url does not determine the
destination: the destination with a url present equals the destination
without any url and never mentions it, and the url annotation pass even
overwrites the user's url with the logical name. -/
theorem url_ignored_counterexample :
    assembleOutPath "_site" [("url", HVal.s "custom")] "page" = "_site/page/index.html" ∧
    assembleOutPath "_site" [] "page" = "_site/page/index.html" ∧
    (annotate_url { name := "page.html", path := "page",
                    header := [("url", HVal.s "custom")], content := [] }).header =
      [("url", HVal.s "page")] :=
  ⟨rfl, rfl, rfl⟩

/-- C5, amended: the destination is selected from the header `path` override
(an index file inside the named directory) and otherwise from the source's
logical path, with `/index` appended unless the destination string already
contains `index`, the extension always normalised to `.html`; a header url
never influences the destination. -/
theorem destination_rule (sitePath : String) (h : Header) (fpath : String) :
    assembleOutPath sitePath h fpath = outputPathSpec sitePath h fpath ∧
    (∀ v, assembleOutPath sitePath (("url", v) :: h) fpath =
      assembleOutPath sitePath h fpath) := by
  constructor
  · unfold assembleOutPath outputPathSpec
    cases hp : lookupKey h "path" with
    | some v => simp
    | none =>
      by_cases hc : containsSub "index" (sitePath ++ "/" ++ fpath) <;> simp [hc]
  · intro v
    unfold assembleOutPath
    have hne : ("url" : String) ≠ "path" := by decide
    simp [lookupKey, hne]

/-- Folding group-entry scans equals scanning the concatenation of all
expanded entry names. -/
theorem scanEntry_foldl_bind (d : String) (env : String → Header × Tpl)
    (dl : List String) (es : List String) (st : ScanState) :
    es.foldl (scanEntry d env dl) st = scanNames d env st (es.flatMap (expandEntry dl)) := by
  induction es generalizing st with
  | nil => rfl
  | cons a as ih =>
    show as.foldl (scanEntry d env dl) (scanEntry d env dl st a) = _
    rw [ih, List.flatMap_cons, scanNames_append]
    rfl

/-- C6: a directory-group scan is the scan of the expanded entry names, and
within it a second entry resolving to an already scanned name contributes
nothing at all: the scan result equals the scan without the duplicate. -/
theorem duplicate_names_dropped
    (d : String) (env : String → Header × Tpl) (dl : List String) :
    (∀ entries, scanGroup d env dl entries =
        scanNames d env emptyScan (entries.flatMap (expandEntry dl))) ∧
    (∀ st xs ys n, n ∈ xs →
        scanNames d env st (xs ++ n :: ys) = scanNames d env st (xs ++ ys)) := by
  constructor
  · intro entries
    exact scanEntry_foldl_bind d env dl entries emptyScan
  · intro st xs ys n hn
    rw [scanNames_append, scanNames_append]
    show scanNames d env (add_file d env (scanNames d env st xs) n) ys = _
    rw [add_file_seen_skip d env _ n (scanNames_seen_of_mem d env xs st n hn)]

/-- Witness for C6: scanning the same entry twice equals scanning it once. -/
theorem duplicate_names_dropped_wit :
    scanNames "posts" envDup emptyScan (["a.html"] ++ "a.html" :: []) =
      scanNames "posts" envDup emptyScan (["a.html"] ++ []) :=
  (duplicate_names_dropped "posts" envDup []).2 emptyScan ["a.html"] [] "a.html" (by simp)

/-- C7: an entry whose header switches the `process_file` flag off is marked
as seen but contributes neither a record to the files list (so nothing is
ever rendered or written for it) nor an entry to the group's listing, for
any body. -/
theorem skip_flag_no_file_no_listing
    (d : String) (env : String → Header × Tpl) (st : ScanState) (e : String)
    (hs : (d ++ "/" ++ e) ∉ st.seen)
    (hf : getFlag (env (d ++ "/" ++ e)).1 "process_file" = false) :
    (add_file d env st e).files = st.files ∧
    (add_file d env st e).listing = st.listing := by
  unfold add_file
  simp [hs, hf]

/-- Witness for C7: a concrete skipped file with non-empty body adds nothing
to the files list or the listing. -/
theorem skip_flag_no_file_no_listing_wit :
    (add_file "posts" envSkip emptyScan "a.html").files = emptyScan.files ∧
    (add_file "posts" envSkip emptyScan "a.html").listing = emptyScan.listing :=
  skip_flag_no_file_no_listing "posts" envSkip emptyScan "a.html"
    (by simp [emptyScan]) rfl

/-- C8: wildcard expansion of one extension class yields exactly the
directory entries whose extension matches that class, in listing order, and
nothing else. -/
theorem wildcard_expansion_filter (dl : List String) :
    expandEntry dl "*.html" = dl.filter (fun f => pySuffix f == ".html") ∧
    expandEntry dl "*.md" = dl.filter (fun f => pySuffix f == ".md") :=
  ⟨foldl_push_filter _ dl [], foldl_push_filter _ dl []⟩

/-- C10: after the build assembles the site dictionary, the key named after
a directory group holds that group's header listing, whatever value the
configuration mapping held under the same name: the configuration value is
unconditionally overwritten and lost. -/
theorem group_listing_overwrites_config (t : Int) (env : String → Header × Tpl)
    (dirs : String → List String) (config : SiteDict)
    (pre : List FileSpec) (d : String) (es : List String) :
    lookupKey (build_site_dict t env dirs config (pre ++ [FileSpec.group d es])) d =
      some (SVal.listing (scanGroup d env (dirs d) es).listing) := by
  unfold build_site_dict
  rw [List.foldl_append]
  exact lookupKey_setKey_self _ _ _
